import Mathlib

/-!
Shallow embedding of the ratatui progress-tracker CLI (`src/main.rs`).

The program is an event loop merging two producers (keyboard input and a
100 ms progress ticker) into one channel consumed by `App::run`.  We embed
the data model (`App`, `Event`, key events, colors), the per-event state
transition (`App.handle_key`, `App.step`), the consumer loop over a finite
list of delivered events (`App.run`), the ticker update rule
(`tickerStep` / `tickerValue`, with `f64` modelled as exact rationals),
and the input producer's per-event forwarding decision
(`handle_input_event`).
-/

namespace ProgressTracker

/-- The `ratatui::style::Color` enum (the variants relevant here plus the
parameterised ones; `Rgb`/`Indexed` carry their numeric payloads).  Its
`Default` implementation yields `Color::Reset`. -/
inductive Color where
  | Reset
  | Black
  | Red
  | Green
  | Yellow
  | Blue
  | Magenta
  | Cyan
  | Gray
  | DarkGray
  | LightRed
  | LightGreen
  | LightYellow
  | LightBlue
  | LightMagenta
  | LightCyan
  | White
  | Rgb (r g b : Nat)
  | Indexed (i : Nat)
deriving DecidableEq

/-- `crossterm::event::KeyCode` (the `Char` variant that the program
inspects, plus the other non-parameterised variants it ignores). -/
inductive KeyCode where
  | Backspace
  | Enter
  | Left
  | Right
  | Up
  | Down
  | Home
  | End
  | PageUp
  | PageDown
  | Tab
  | BackTab
  | Delete
  | Insert
  | F (n : Nat)
  | Char (c : Char)
  | Null
  | Esc
deriving DecidableEq

/-- `crossterm::event::KeyEventKind`: press, repeat, or release. -/
inductive KeyEventKind where
  | Press
  | Repeat
  | Release
deriving DecidableEq

/-- `crossterm::event::KeyEvent`, restricted to the two fields the program
reads (`code` and `kind`; the `modifiers`/`state` fields are never
inspected by `main.rs`). -/
structure KeyEvent where
  code : KeyCode
  kind : KeyEventKind
deriving DecidableEq

/-- The `App` struct (`main.rs` lines 34-39): exit flag, gauge color and
background progress.  `f64` is modelled as an exact rational. -/
structure App where
  exit : Bool
  progress_bar_color : Color
  background_progress : ℚ
deriving DecidableEq

/-- `App::default()` from `#[derive(Default)]`: `exit = false`,
`progress_bar_color = Color::Reset`, `background_progress = 0.0`. -/
def App.default : App :=
  { exit := false, progress_bar_color := Color.Reset, background_progress := 0 }

/-- The `Event` enum (`main.rs` lines 41-44). -/
inductive Event where
  | Input (k : KeyEvent)
  | Progress (p : ℚ)
deriving DecidableEq

/-- `crossterm::event::Event`: the raw terminal events read by the input
producer; the program only distinguishes the `Key` variant. -/
inductive TermEvent where
  | Key (k : KeyEvent)
  | FocusGained
  | FocusLost
  | Mouse
  | Paste (s : String)
  | Resize (w h : Nat)

/-- Per-event body of `handle_input_event` (`main.rs` lines 46-52): the
producer forwards a raw terminal event to the channel as
`Event::Input(key_event)` exactly when it is a `Key` event; the result is
`none` when nothing is sent for this raw event. -/
def handle_input_event (e : TermEvent) : Option Event :=
  match e with
  | TermEvent.Key key_event => some (Event.Input key_event)
  | _ => none

/-- One iteration of `run_background_thread`'s update
(`main.rs` line 58): `progress = (progress + 0.01).min(1.0)`. -/
def tickerStep (progress : ℚ) : ℚ :=
  min (progress + 1 / 100) 1

/-- The value the ticker has emitted after `n` ticks, starting from the
internal counter `0.0` (`main.rs` lines 54-61); `tickerValue 0 = 0` is the
initial counter, and tick `n + 1` emits `tickerStep` of the previous
value. -/
def tickerValue : Nat → ℚ
  | 0 => 0
  | n + 1 => tickerStep (tickerValue n)

/-- The color toggle performed by the `KeyCode::Char('c')` arm of
`App::handle_key` (`main.rs` lines 83-86):
`match color { Green => Yellow, _ => Green }`. -/
def toggleColor (c : Color) : Color :=
  match c with
  | Color.Green => Color.Yellow
  | _ => Color.Green

/-- `App::handle_key` (`main.rs` lines 75-92).  The source matches on
`KeyCode::Char('q')` and `KeyCode::Char('c')` patterns, which we render as
equality tests on the carried character; every path returns `Ok(())`, so
the result is always `Except.ok`.  (The `println!` on the quit path is a
side effect outside the state and is not modelled.) -/
def App.handle_key (app : App) (key : KeyEvent) : Except String App :=
  if key.kind = KeyEventKind.Press then
    match key.code with
    | KeyCode.Char c =>
      if c = 'q' then
        Except.ok { app with exit := true }
      else if c = 'c' then
        Except.ok { app with progress_bar_color := toggleColor app.progress_bar_color }
      else
        Except.ok app
    | _ => Except.ok app
  else
    Except.ok app

/-- The event dispatch in the body of `App::run`'s loop
(`main.rs` lines 67-70): a key event goes to `handle_key`, a progress
event overwrites `background_progress` unconditionally. -/
def App.step (app : App) (e : Event) : Except String App :=
  match e with
  | Event.Input key_event => app.handle_key key_event
  | Event.Progress p => Except.ok { app with background_progress := p }

/-- `App::run` (`main.rs` lines 64-73) consuming a finite list of events
delivered by the channel: the loop runs `while !self.exit`, handling one
event per iteration and propagating `handle_key`'s result with `?`.
Drawing is a side effect on the terminal and does not touch the state. -/
def App.run (app : App) (events : List Event) : Except String App :=
  match events with
  | [] => Except.ok app
  | e :: rest =>
    if app.exit then
      Except.ok app
    else
      match app.step e with
      | Except.ok app2 => app2.run rest
      | Except.error s => Except.error s

/-- States of the consumer reachable at the top of `App::run`'s loop,
starting from `App::default()`: the loop only dispatches an event when the
exit flag is still unset. -/
inductive Reachable : App → Prop where
  | init : Reachable App.default
  | step (a : App) (e : Event) (a2 : App) :
      Reachable a → a.exit = false → a.step e = Except.ok a2 → Reachable a2

/-- The toggle key pressed: `KeyPress{'c'}` with kind `Press`. -/
def cPress : KeyEvent :=
  { code := KeyCode.Char 'c', kind := KeyEventKind.Press }

/-- The state reached from startup after one toggle-key press. -/
def appGreen : App :=
  { App.default with progress_bar_color := Color.Green }

/-- The state reached from startup after two toggle-key presses. -/
def appYellow : App :=
  { App.default with progress_bar_color := Color.Yellow }

/-! ## Helper lemmas -/

theorem tickerValue_closed (n : Nat) : tickerValue n = min ((n : ℚ) / 100) 1 := by
  induction n with
  | zero => simp [tickerValue]
  | succ n ih =>
    have hcast : ((n + 1 : Nat) : ℚ) / 100 = (n : ℚ) / 100 + 1 / 100 := by
      push_cast
      ring
    rw [tickerValue, tickerStep, ih, hcast]
    rcases le_total 1 ((n : ℚ) / 100) with h | h
    · rw [min_eq_right h, min_eq_right (by linarith : (1 : ℚ) ≤ 1 + 1 / 100),
        min_eq_right (by linarith : (1 : ℚ) ≤ (n : ℚ) / 100 + 1 / 100)]
    · rw [min_eq_left h]

theorem handle_key_quit (app : App) (k : KeyEvent)
    (hc : k.code = KeyCode.Char 'q') (hk : k.kind = KeyEventKind.Press) :
    app.handle_key k = Except.ok { app with exit := true } := by
  simp [App.handle_key, hc, hk]

theorem handle_key_toggle (app : App) (k : KeyEvent)
    (hc : k.code = KeyCode.Char 'c') (hk : k.kind = KeyEventKind.Press) :
    app.handle_key k =
      Except.ok { app with progress_bar_color := toggleColor app.progress_bar_color } := by
  simp [App.handle_key, hc, hk]

theorem handle_key_other (app : App) (k : KeyEvent) (hk : k.kind = KeyEventKind.Press)
    (hq : k.code ≠ KeyCode.Char 'q') (hc : k.code ≠ KeyCode.Char 'c') :
    app.handle_key k = Except.ok app := by
  obtain ⟨code, kind⟩ := k
  cases code <;> simp_all [App.handle_key]

theorem handle_key_not_press (app : App) (k : KeyEvent)
    (h : k.kind ≠ KeyEventKind.Press) :
    app.handle_key k = Except.ok app := by
  simp [App.handle_key, h]

theorem handle_key_cases (app : App) (k : KeyEvent) :
    app.handle_key k = Except.ok app ∨
    app.handle_key k = Except.ok { app with exit := true } ∨
    app.handle_key k =
      Except.ok { app with progress_bar_color := toggleColor app.progress_bar_color } := by
  obtain ⟨code, kind⟩ := k
  cases kind
  case Repeat => simp [App.handle_key]
  case Release => simp [App.handle_key]
  case Press =>
    cases code
    case Char c =>
      by_cases hq : c = 'q'
      · subst hq
        simp [App.handle_key]
      · by_cases hc : c = 'c'
        · subst hc
          simp [App.handle_key]
        · simp [App.handle_key, hq, hc]
    all_goals simp [App.handle_key]

theorem run_exited (app : App) (h : app.exit = true) (events : List Event) :
    app.run events = Except.ok app := by
  cases events with
  | nil => rfl
  | cons e rest => simp [App.run, h]

theorem toggleColor_mem (c : Color) :
    toggleColor c = Color.Green ∨ toggleColor c = Color.Yellow := by
  cases c <;> simp [toggleColor]

theorem reachable_color_mem (a : App) (h : Reachable a) :
    a.progress_bar_color = Color.Reset ∨ a.progress_bar_color = Color.Green ∨
      a.progress_bar_color = Color.Yellow := by
  induction h with
  | init => exact Or.inl rfl
  | step a e a2 _ hexit hstep ih =>
    cases e with
    | Progress p =>
      simp only [App.step] at hstep
      injection hstep with h2
      rw [← h2]
      exact ih
    | Input k =>
      simp only [App.step] at hstep
      rcases handle_key_cases a k with hc | hc | hc <;>
        rw [hc] at hstep <;> injection hstep with h2 <;> rw [← h2]
      · exact ih
      · exact ih
      · exact Or.inr (toggleColor_mem a.progress_bar_color)

theorem reachable_appGreen : Reachable appGreen := by
  refine Reachable.step App.default (Event.Input cPress) appGreen Reachable.init rfl ?_
  simp [App.step, App.handle_key, cPress, appGreen, App.default, toggleColor]

theorem reachable_appYellow : Reachable appYellow := by
  refine Reachable.step appGreen (Event.Input cPress) appYellow reachable_appGreen rfl ?_
  simp [App.step, App.handle_key, cPress, appGreen, appYellow, App.default, toggleColor]

theorem run_cons_running (app : App) (h : app.exit = false) (e : Event)
    (rest : List Event) (a2 : App) (hstep : app.step e = Except.ok a2) :
    app.run (e :: rest) = a2.run rest := by
  simp only [App.run, h, Bool.false_eq_true, if_false, hstep]

theorem run_progress_list :
    ∀ (ps : List ℚ) (hne : ps ≠ []) (app : App), app.exit = false →
      app.run (ps.map Event.Progress) =
        Except.ok { app with background_progress := ps.getLast hne }
  | [], hne, _, _ => absurd rfl hne
  | [p], _, app, h => by
    simp [App.run, App.step, h, List.getLast]
  | p :: q :: rest, _, app, h => by
    have ih := run_progress_list (q :: rest) (by simp)
      { app with background_progress := p } h
    rw [List.map_cons, run_cons_running app h (Event.Progress p) _ _ rfl]
    exact ih

/-! ## Claim theorems -/

/-- Claim C1, counterexample: the toggle performed by `KeyPress{'c'}` is
not an involution from every starting value.  From the startup color
`Color::Reset` (which `#[derive(Default)]` produces), two toggles give
`Yellow`, not `Reset` back. -/
theorem toggle_involution_counterexample :
    toggleColor (toggleColor Color.Reset) = Color.Yellow ∧
      Color.Yellow ≠ Color.Reset := by
  exact ⟨rfl, by simp⟩

/-- Claim C1, amended: toggling twice returns the starting value for the
two toggle colors `Green` and `Yellow`, and every toggle lands in
`{Green, Yellow}`; but the gauge color has exactly three reachable values,
not two: the initial `Reset` plus `Green` and `Yellow`. -/
theorem toggle_involution_amended :
    (∀ c : Color, c = Color.Green ∨ c = Color.Yellow →
      toggleColor (toggleColor c) = c) ∧
    (∀ c : Color, toggleColor c = Color.Green ∨ toggleColor c = Color.Yellow) ∧
    (∀ a : App, Reachable a →
      a.progress_bar_color = Color.Reset ∨ a.progress_bar_color = Color.Green ∨
        a.progress_bar_color = Color.Yellow) ∧
    (Reachable App.default ∧ App.default.progress_bar_color = Color.Reset) ∧
    (Reachable appGreen ∧ appGreen.progress_bar_color = Color.Green) ∧
    (Reachable appYellow ∧ appYellow.progress_bar_color = Color.Yellow) := by
  refine ⟨?_, toggleColor_mem, reachable_color_mem, ⟨Reachable.init, rfl⟩,
    ⟨reachable_appGreen, rfl⟩, ⟨reachable_appYellow, rfl⟩⟩
  rintro c (rfl | rfl) <;> rfl

/-- Claim C1, witness: the amended involution instantiated at `Green`. -/
theorem toggle_involution_amended_witness :
    toggleColor (toggleColor Color.Green) = Color.Green :=
  toggle_involution_amended.1 Color.Green (Or.inl rfl)

/-- Claim C2: while running, a `ProgressUpdate{value}` event sets
`background_progress := value` unconditionally, and for every non-empty
sequence of progress events the final progress equals the last value sent
(last-write-wins), the other fields unchanged. -/
theorem progress_last_write_wins :
    (∀ (app : App) (v : ℚ),
      app.step (Event.Progress v) =
        Except.ok { app with background_progress := v }) ∧
    (∀ (ps : List ℚ) (hne : ps ≠ []) (app : App), app.exit = false →
      app.run (ps.map Event.Progress) =
        Except.ok { app with background_progress := ps.getLast hne }) :=
  ⟨fun _ _ => rfl, run_progress_list⟩

/-- Claim C2, witness: from the startup state, delivering progress values
`0.35` then `0.7` ends with progress `0.7`. -/
theorem progress_last_write_wins_witness :
    App.run App.default ([(35 : ℚ) / 100, 7 / 10].map Event.Progress) =
      Except.ok { App.default with background_progress := 7 / 10 } := by
  have h := progress_last_write_wins.2 [(35 : ℚ) / 100, 7 / 10] (by simp)
    App.default rfl
  simpa using h

/-- Claim C3: starting from an internal counter of `0.0`, the value the
ticker has produced after `n` ticks equals `min(0.01 * n, 1.0)`; it never
exceeds `1.0` and never decreases from one tick to the next. -/
theorem ticker_closed_form :
    (∀ n : Nat, tickerValue n = min ((n : ℚ) / 100) 1) ∧
    (∀ n : Nat, tickerValue n ≤ 1) ∧
    (∀ n : Nat, tickerValue n ≤ tickerValue (n + 1)) := by
  refine ⟨tickerValue_closed, fun n => ?_, fun n => ?_⟩
  · rw [tickerValue_closed]
    exact min_le_right _ _
  · rw [tickerValue_closed, tickerValue_closed]
    refine min_le_min ?_ le_rfl
    push_cast
    linarith

/-- Claim C4: a press of the quit key `'q'` sets the exit flag from any
state, regardless of progress and color, and once the exit flag is set the
loop processes no further event: `run` on an exited state returns it
unchanged for every event list. -/
theorem quit_key_exits (app : App) (k : KeyEvent)
    (hc : k.code = KeyCode.Char 'q') (hk : k.kind = KeyEventKind.Press) :
    app.handle_key k = Except.ok { app with exit := true } ∧
    ∀ events : List Event,
      App.run { app with exit := true } events =
        Except.ok { app with exit := true } :=
  ⟨handle_key_quit app k hc hk, fun events => run_exited _ rfl events⟩

/-- Claim C4, witness: quitting from a mid-run state, then delivering one
more progress event, leaves the exited state untouched. -/
theorem quit_key_exits_witness :
    App.handle_key (⟨false, Color.Green, 1 / 2⟩ : App)
      { code := KeyCode.Char 'q', kind := KeyEventKind.Press } =
      Except.ok (⟨true, Color.Green, 1 / 2⟩ : App) ∧
    App.run (⟨true, Color.Green, 1 / 2⟩ : App) [Event.Progress 1] =
      Except.ok (⟨true, Color.Green, 1 / 2⟩ : App) := by
  have h := quit_key_exits
    ⟨false, Color.Green, 1 / 2⟩
    ⟨KeyCode.Char 'q', KeyEventKind.Press⟩ rfl rfl
  exact ⟨h.1, h.2 [Event.Progress 1]⟩

/-- Claim C5: a press of the toggle key `'c'` sends `Green` to `Yellow`
and `Yellow` to `Green`, and leaves the progress field and the exit flag
unchanged in every state. -/
theorem toggle_key_flips_color (app : App) (k : KeyEvent)
    (hc : k.code = KeyCode.Char 'c') (hk : k.kind = KeyEventKind.Press) :
    (app.progress_bar_color = Color.Green →
      app.handle_key k =
        Except.ok { app with progress_bar_color := Color.Yellow }) ∧
    (app.progress_bar_color = Color.Yellow →
      app.handle_key k =
        Except.ok { app with progress_bar_color := Color.Green }) ∧
    (∃ a : App, app.handle_key k = Except.ok a ∧
      a.background_progress = app.background_progress ∧ a.exit = app.exit) := by
  refine ⟨?_, ?_, ?_⟩
  · intro h
    rw [handle_key_toggle app k hc hk, h]
    rfl
  · intro h
    rw [handle_key_toggle app k hc hk, h]
    rfl
  · exact ⟨{ app with progress_bar_color := toggleColor app.progress_bar_color },
      handle_key_toggle app k hc hk, rfl, rfl⟩

/-- Claim C5, witness: pressing `'c'` with the gauge `Green` at progress
`1/4` yields `Yellow` with the progress and exit flag intact. -/
theorem toggle_key_flips_color_witness :
    App.handle_key (⟨false, Color.Green, 1 / 4⟩ : App) cPress =
      Except.ok (⟨false, Color.Yellow, 1 / 4⟩ : App) := by
  have h := toggle_key_flips_color
    ⟨false, Color.Green, 1 / 4⟩ cPress rfl rfl
  exact h.1 rfl

/-- Claim C6: applying the ticker update rule 150 consecutive times from
`0.0` yields exactly `1.0` (not `1.5`): the clamp holds the value at the
boundary. -/
theorem ticker_clamps_at_150 : tickerValue 150 = 1 := by
  rw [tickerValue_closed]
  norm_num

/-- Claim C7: a key press whose code is neither `'q'` nor `'c'` leaves the
whole state unchanged and is not an error (the handler returns `Ok`). -/
theorem other_key_noop (app : App) (k : KeyEvent)
    (hk : k.kind = KeyEventKind.Press)
    (hq : k.code ≠ KeyCode.Char 'q') (hc : k.code ≠ KeyCode.Char 'c') :
    app.handle_key k = Except.ok app :=
  handle_key_other app k hk hq hc

/-- Claim C7, witness: pressing `'x'` from a mid-run state changes
nothing. -/
theorem other_key_noop_witness :
    App.handle_key (⟨false, Color.Yellow, 3 / 5⟩ : App)
      { code := KeyCode.Char 'x', kind := KeyEventKind.Press } =
      Except.ok (⟨false, Color.Yellow, 3 / 5⟩ : App) :=
  other_key_noop ⟨false, Color.Yellow, 3 / 5⟩
    ⟨KeyCode.Char 'x', KeyEventKind.Press⟩ rfl (by simp) (by simp)

/-- Claim C8, counterexample: the input producer does not filter on key
kind — a release of `'q'` is forwarded to the channel as `Event::Input`,
contradicting the claim that non-press key events are never sent. -/
theorem input_producer_no_filter_counterexample :
    handle_input_event
        (TermEvent.Key { code := KeyCode.Char 'q', kind := KeyEventKind.Release }) =
      some (Event.Input { code := KeyCode.Char 'q', kind := KeyEventKind.Release }) ∧
    handle_input_event
        (TermEvent.Key { code := KeyCode.Char 'q', kind := KeyEventKind.Release }) ≠
      none := by
  exact ⟨rfl, by simp [handle_input_event]⟩

/-- Claim C8, amended: the input producer forwards every key event to the
channel regardless of kind, and only key events — every non-key terminal
event (mouse, resize, paste, focus) is dropped; the press-kind filter is
applied by the consumer, whose `handle_key` ignores non-press events. -/
theorem input_producer_forwards_all_key_events :
    (∀ k : KeyEvent,
      handle_input_event (TermEvent.Key k) = some (Event.Input k)) ∧
    (∀ e : TermEvent, (∀ k : KeyEvent, e ≠ TermEvent.Key k) →
      handle_input_event e = none) ∧
    (∀ (app : App) (k : KeyEvent), k.kind ≠ KeyEventKind.Press →
      app.handle_key k = Except.ok app) := by
  refine ⟨fun _ => rfl, ?_, handle_key_not_press⟩
  intro e he
  cases e
  case Key k => exact absurd rfl (he k)
  all_goals rfl

/-- Claim C8, witness: the consumer-side filter instantiated at a `'q'`
release from the startup state, and the producer-side drop instantiated at
a mouse event. -/
theorem input_producer_forwards_all_key_events_witness :
    App.handle_key App.default
        { code := KeyCode.Char 'q', kind := KeyEventKind.Release } =
      Except.ok App.default ∧
    handle_input_event TermEvent.Mouse = none :=
  ⟨input_producer_forwards_all_key_events.2.2 App.default
      ⟨KeyCode.Char 'q', KeyEventKind.Release⟩ (by simp),
    input_producer_forwards_all_key_events.2.1 TermEvent.Mouse (by simp)⟩

/-- Claim C9: the startup state's color is `Color::Reset` (from the
derived `Default`), which is neither toggle color; the first `'c'` press
sets it to `Green` through the catch-all match arm; and three distinct
color values — `Reset`, `Green`, `Yellow` — are reachable from startup. -/
theorem initial_color_reset_three_reachable :
    App.default.progress_bar_color = Color.Reset ∧
    Color.Reset ≠ Color.Green ∧
    Color.Reset ≠ Color.Yellow ∧
    App.default.handle_key cPress =
      Except.ok { App.default with progress_bar_color := Color.Green } ∧
    (Reachable App.default ∧ App.default.progress_bar_color = Color.Reset) ∧
    (Reachable appGreen ∧ appGreen.progress_bar_color = Color.Green) ∧
    (Reachable appYellow ∧ appYellow.progress_bar_color = Color.Yellow) := by
  refine ⟨rfl, by simp, by simp, ?_, ⟨Reachable.init, rfl⟩,
    ⟨reachable_appGreen, rfl⟩, ⟨reachable_appYellow, rfl⟩⟩
  simp [App.handle_key, App.default, cPress, toggleColor]

/-- Claim C10: a key event whose kind is not `Press` (release or repeat)
leaves the whole state unchanged — in particular a release of `'q'` does
not set the exit flag — while the producer still forwards it: the
press-kind filtering happens in the consumer, not the producer. -/
theorem non_press_key_ignored_by_consumer (app : App) (k : KeyEvent)
    (h : k.kind ≠ KeyEventKind.Press) :
    app.handle_key k = Except.ok app ∧
    handle_input_event (TermEvent.Key k) = some (Event.Input k) :=
  ⟨handle_key_not_press app k h, rfl⟩

/-- Claim C10, witness: releasing `'q'` mid-run neither exits nor changes
anything else. -/
theorem non_press_key_ignored_by_consumer_witness :
    App.handle_key (⟨false, Color.Green, 9 / 10⟩ : App)
      { code := KeyCode.Char 'q', kind := KeyEventKind.Release } =
      Except.ok (⟨false, Color.Green, 9 / 10⟩ : App) :=
  (non_press_key_ignored_by_consumer ⟨false, Color.Green, 9 / 10⟩
    ⟨KeyCode.Char 'q', KeyEventKind.Release⟩ (by simp)).1

end ProgressTracker
